import Mathlib

/-!
Verification of the region/label synchronization engine of
`src/react/components/pages/editorPage/canvas.tsx` (OCR-Form-Tools).

The TypeScript source is shallowly embedded below.  JavaScript strings are
modelled as `List Char` (named `Str`), JavaScript numbers as `ℚ` (every
floating-point value that actually flows through the verified paths is a
finite decimal, hence a rational; `NaN` is noted where it could arise and is
kept off the verified paths), and JavaScript arrays as `List`.  The
`number → string` conversion used by `Array.prototype.join` is modelled by
`floatToStr`, which renders a rational with decimal denominator in plain
decimal notation, and `parseFloat` is modelled faithfully as a
maximal-prefix parser that ignores trailing junk (this is what lets the
region-id decoder recover the final coordinate from a token such as
`"0.5:2"`).
-/

/-- JavaScript strings are modelled as lists of characters. -/
abbrev Str := List Char

/-- The character for a decimal digit `d < 10`. -/
def digitChar (d : Nat) : Char := Char.ofNat (48 + d)

/-- Decimal-digit test and value, by character code (48–57), as JavaScript
number parsing does. -/
def digit? (c : Char) : Option Nat :=
  if 48 ≤ c.toNat ∧ c.toNat ≤ 57 then some (c.toNat - 48) else none

/-- Fuel-driven most-significant-first digit expansion of a natural number
(`natDigs 0 = []`).  Fuel keeps the recursion structural so that concrete
instances evaluate inside the kernel. -/
def natDigsF : Nat → Nat → List Nat
  | _, 0 => []
  | 0, _ + 1 => []
  | f + 1, n + 1 => natDigsF f ((n + 1) / 10) ++ [(n + 1) % 10]

/-- Digits of a natural number, most significant first; empty for `0`. -/
def natDigs (n : Nat) : List Nat := natDigsF n n

/-- Value of a most-significant-first digit list. -/
def digitsVal (ds : List Nat) : Nat := ds.foldl (fun a d => a * 10 + d) 0

/-- Decimal rendering of a natural number (JavaScript `String(n)`). -/
def natToStr (n : Nat) : Str :=
  if n = 0 then ['0'] else (natDigs n).map digitChar

/-- The fractional digits of `f < 10^e`, zero-padded on the left to width
`e`. -/
def fracDigs (f e : Nat) : List Nat :=
  List.replicate (e - (natDigs f).length) 0 ++ natDigs f

/-- Plain decimal rendering of `m / 10^e` (sign, integer part, and — when
`e > 0` — a point followed by `e` fraction digits). -/
def intFracToStr (m : Int) (e : Nat) : Str :=
  let a := m.natAbs
  (if m < 0 then ['-'] else []) ++ natToStr (a / 10 ^ e) ++
    (if e = 0 then [] else '.' :: (fracDigs (a % 10 ^ e) e).map digitChar)

/-- A rational is a finite decimal exactly when clearing `10^den`
denominators yields an integer.  All JavaScript doubles satisfy this. -/
def IsDec (q : ℚ) : Prop := (q * 10 ^ q.den).den = 1

instance (q : ℚ) : Decidable (IsDec q) := by unfold IsDec; infer_instance

/-- Decimal rendering of a finite-decimal rational, the model of JavaScript
number-to-string conversion (up to floating-point formatting: exponent
notation and minimal-width formatting are not reproduced, only the numeric
value, which is all the spec promises). -/
def floatToStr (q : ℚ) : Str := intFracToStr ((q * 10 ^ q.den).num) q.den

/-- Take the maximal run of decimal digits from the front of a string,
returning their values and the remainder. -/
def takeDigits : Str → List Nat × Str
  | [] => ([], [])
  | c :: cs =>
    match digit? c with
    | some d =>
      let r := takeDigits cs
      (d :: r.1, r.2)
    | none => ([], c :: cs)

/-- Value of a digit list read as the fraction `0.d₁d₂…`. -/
def fracVal (ds : List Nat) : ℚ := (digitsVal ds : ℚ) / 10 ^ ds.length

/-- Unsigned part of JavaScript `parseFloat`: digits, an optional point with
more digits, then arbitrary ignored junk; `none` models `NaN`. -/
def parseFloatUnsigned (s : Str) : Option ℚ :=
  let ir := takeDigits s
  match ir.2 with
  | c :: r2 =>
    if c = '.' then
      let fr := takeDigits r2
      if ir.1 = [] ∧ fr.1 = [] then none
      else some ((digitsVal ir.1 : ℚ) + fracVal fr.1)
    else if ir.1 = [] then none else some (digitsVal ir.1)
  | [] => if ir.1 = [] then none else some (digitsVal ir.1)

/-- JavaScript `parseFloat` on a token: optional sign, then the unsigned
form; `none` models `NaN`. -/
def parseFloat (s : Str) : Option ℚ :=
  match s with
  | [] => parseFloatUnsigned []
  | c :: rest =>
    if c = '-' then (parseFloatUnsigned rest).map (fun q => -q)
    else if c = '+' then parseFloatUnsigned rest
    else parseFloatUnsigned (c :: rest)

/-- Total version of `parseFloat` used where the source stores the parsed
number directly; the `NaN` outcome (unreachable on the verified paths) is
collapsed to `0`. -/
def parseFloatD (s : Str) : ℚ := (parseFloat s).getD 0

/-- JavaScript `String.prototype.split` with a one-character separator;
always returns at least one (possibly empty) token. -/
def splitOnChar (sep : Char) : Str → List Str
  | [] => [[]]
  | c :: rest =>
    if c = sep then [] :: splitOnChar sep rest
    else
      match splitOnChar sep rest with
      | [] => [[c]]
      | t :: ts => (c :: t) :: ts

/-- JavaScript `Array.prototype.join` with a one-character separator. -/
def joinSep (sep : Char) : List Str → Str
  | [] => []
  | [x] => x
  | x :: y :: ys => x ++ sep :: joinSep sep (y :: ys)

/-- JavaScript `Math.round`: half-up rounding, `⌊x + 1/2⌋`. -/
def jsRound (q : ℚ) : ℤ := ⌊q + 1 / 2⌋

/-- Hexadecimal-digit value of a character, for percent-escapes. -/
def hexVal? (c : Char) : Option Nat :=
  if 48 ≤ c.toNat ∧ c.toNat ≤ 57 then some (c.toNat - 48)
  else if 65 ≤ c.toNat ∧ c.toNat ≤ 70 then some (c.toNat - 55)
  else if 97 ≤ c.toNat ∧ c.toNat ≤ 102 then some (c.toNat - 87)
  else none

/-- JavaScript `decodeURIComponent` restricted to single-byte escapes; a
malformed escape is kept literally (the real function throws `URIError`,
which no verified path exercises), and multi-byte UTF-8 sequences are not
recombined. -/
def decodeURIComponentChars : Str → Str
  | [] => []
  | '%' :: a :: b :: rest =>
    match hexVal? a, hexVal? b with
    | some x, some y => Char.ofNat (16 * x + y) :: decodeURIComponentChars rest
    | _, _ => '%' :: decodeURIComponentChars (a :: b :: rest)
  | c :: rest => c :: decodeURIComponentChars rest

/-- First-occurrence-preserving deduplication, the semantics of
`Array.from(new Set(xs))`; the accumulator keeps the values already seen. -/
def dedupFirstAux {α : Type} [DecidableEq α] (seen : List α) : List α → List α
  | [] => []
  | x :: xs =>
    if x ∈ seen then dedupFirstAux seen xs
    else x :: dedupFirstAux (x :: seen) xs

/-- JavaScript `Array.from(new Set(xs))`: distinct values in first-occurrence
order. -/
def dedupFirst {α : Type} [DecidableEq α] (l : List α) : List α :=
  dedupFirstAux [] l

/-!
Data model (`applicationState.ts` interfaces, restricted to the fields the
canvas engine reads), and the canvas engine's pure helpers.
-/

/-- Region kind; the engine only ever produces polygons. -/
inductive RegionType where
  | polygon
deriving DecidableEq

/-- A 2-D point in normalized `[0,1]` coordinates (`{x, y}` object). -/
structure RPoint where
  x : ℚ
  y : ℚ
deriving DecidableEq

/-- Axis-aligned envelope `{left, top, width, height}`. -/
structure RBoundingBox where
  height : ℚ
  width : ℚ
  left : ℚ
  top : ℚ
deriving DecidableEq

/-- A region (`IRegion`): the canonical editable annotation unit. -/
structure IRegion where
  id : Str
  type : RegionType
  tags : List Str
  boundingBox : RBoundingBox
  points : List RPoint
  value : Str
  pageNumber : Nat
deriving DecidableEq

/-- One `{page, text, boundingBoxes}` entry of a label (`IFormRegion`). -/
structure IFormRegion where
  page : Nat
  text : Str
  boundingBoxes : List (List ℚ)
deriving DecidableEq

/-- One labelled field (`ILabel`); `key` is always `null` when produced by
the engine. -/
structure ILabel where
  label : Str
  key : Option Str
  value : List IFormRegion
deriving DecidableEq

/-- Persisted label data (`ILabelData`). -/
structure ILabelData where
  document : Str
  labels : List ILabel
deriving DecidableEq

/-- A rectangular extent `[minx, miny, maxx, maxy]` of the map widget or an
OCR page. -/
structure Extent where
  minX : ℚ
  minY : ℚ
  maxX : ℚ
  maxY : ℚ
deriving DecidableEq

/-- A vector feature as the engine hands it to the image map: the property
bag `{id, text, isOcrProposal}` plus the polygon's display-pixel
coordinates. -/
structure MapFeature where
  id : Str
  text : Str
  coordinates : List (ℤ × ℤ)
  isOcrProposal : Bool
deriving DecidableEq

/-- A recognized word of the OCR result. -/
structure OcrWord where
  text : Str
  boundingBox : List ℚ
deriving DecidableEq

/-- A recognized line of the OCR result. -/
structure OcrLine where
  words : List OcrWord
deriving DecidableEq

/-- One page entry of the OCR result (`{page, width, height, lines}`). -/
structure OcrPage where
  page : Nat
  width : ℚ
  height : ℚ
  lines : List OcrLine
deriving DecidableEq

/-- A `(page, order)` pair of the region order index (`IRegionOrder`). -/
structure IRegionOrder where
  page : Nat
  order : Nat
deriving DecidableEq

/-- Source `createRegionIdFromBoundingBox`:
`boundingBox.join(",") + ":" + page`. -/
def createRegionIdFromBoundingBox (boundingBox : List ℚ) (page : Nat) : Str :=
  joinSep ',' (boundingBox.map floatToStr) ++ ':' :: natToStr page

/-- The expression `regionId.split(",").map(parseFloat)` used by
`convertRegionToFeature`, `handleFeatureSelect` and
`convertRegionsToLabelData` to recover a flat coordinate list from a region
id (the page suffix `":p"` rides along on the last token and is discarded
by `parseFloat`). -/
def splitIdToFloats (regionId : Str) : List ℚ :=
  (splitOnChar ',' regionId).map parseFloatD

/-- Source `shouldDisplayOcrWord`: a word is displayed unless its text
matches `^[_]+$` (one or more underscores and nothing else). -/
def shouldDisplayOcrWord (text : Str) : Bool :=
  !(!text.isEmpty && text.all (fun c => c = '_'))

/-- The `polygonPoints` accumulation of `createBoundingBoxVectorFeature`:
OCR-pixel coordinates normalized by the OCR extent, pairwise.  A trailing
odd coordinate would produce a `NaN` y-value in JavaScript; it is dropped
here and excluded from every claim. -/
def polygonPointsOf (ocrWidth ocrHeight : ℚ) : List ℚ → List ℚ
  | x :: y :: rest => x / ocrWidth :: y / ocrHeight :: polygonPointsOf ocrWidth ocrHeight rest
  | _ => []

/-- The `coordinates` accumulation of `createBoundingBoxVectorFeature`:
each OCR-pixel vertex scaled to display pixels with the y-flip,
`[round((x/ocrW)·imgW), round((1 − y/ocrH)·imgH)]`.  A trailing odd
coordinate (JavaScript `NaN`) is dropped here and excluded from every
claim. -/
def displayCoordinatesOf (imageWidth imageHeight ocrWidth ocrHeight : ℚ) :
    List ℚ → List (ℤ × ℤ)
  | x :: y :: rest =>
    (jsRound (x / ocrWidth * imageWidth), jsRound ((1 - y / ocrHeight) * imageHeight)) ::
      displayCoordinatesOf imageWidth imageHeight ocrWidth ocrHeight rest
  | _ => []

/-- Source `createBoundingBoxVectorFeature`: builds the OCR-proposal vector
feature for a word, with display-pixel geometry and an id encoding the
OCR-extent-normalized polygon and the page. -/
def createBoundingBoxVectorFeature (text : Str) (boundingBox : List ℚ)
    (imageExtent ocrExtent : Extent) (page : Nat) : MapFeature :=
  let imageWidth := imageExtent.maxX - imageExtent.minX
  let imageHeight := imageExtent.maxY - imageExtent.minY
  let ocrWidth := ocrExtent.maxX - ocrExtent.minX
  let ocrHeight := ocrExtent.maxY - ocrExtent.minY
  let polygonPoints := polygonPointsOf ocrWidth ocrHeight boundingBox
  { id := createRegionIdFromBoundingBox polygonPoints page
    text := text
    coordinates := displayCoordinatesOf imageWidth imageHeight ocrWidth ocrHeight boundingBox
    isOcrProposal := true }

/-- The per-vertex loop of `convertRegionToFeature`: normalized coordinates
scaled to display pixels with the y-flip. -/
def normalizedDisplayCoordinatesOf (imageWidth imageHeight : ℚ) :
    List ℚ → List (ℤ × ℤ)
  | x :: y :: rest =>
    (jsRound (x * imageWidth), jsRound ((1 - y) * imageHeight)) ::
      normalizedDisplayCoordinatesOf imageWidth imageHeight rest
  | _ => []

/-- Source `convertRegionToFeature`: rebuilds a (non-proposal) feature for a
user region from the geometry encoded in its id. -/
def convertRegionToFeature (region : IRegion) (imageExtent : Extent) : MapFeature :=
  let boundingBox := splitIdToFloats region.id
  let imageWidth := imageExtent.maxX - imageExtent.minX
  let imageHeight := imageExtent.maxY - imageExtent.minY
  { id := region.id
    text := region.value
    coordinates := normalizedDisplayCoordinatesOf imageWidth imageHeight boundingBox
    isOcrProposal := false }

/-- JavaScript `Math.min(...values)` over a non-empty list; the empty case
(JavaScript `Infinity`) is unreachable on the verified paths and collapses
to `0`. -/
def jsMin : List ℚ → ℚ
  | [] => 0
  | x :: xs => xs.foldl min x

/-- JavaScript `Math.max(...values)` over a non-empty list; the empty case
(JavaScript `-Infinity`) is unreachable on the verified paths and collapses
to `0`. -/
def jsMax : List ℚ → ℚ
  | [] => 0
  | x :: xs => xs.foldl max x

/-- The `filter((value, index) => index % 2 === 0)` idiom selecting x-axis
values of a flat coordinate list. -/
def evenIndexEntries (l : List ℚ) : List ℚ :=
  (l.enum.filter (fun p => p.1 % 2 = 0)).map Prod.snd

/-- The `filter((value, index) => index % 2 === 1)` idiom selecting y-axis
values of a flat coordinate list. -/
def oddIndexEntries (l : List ℚ) : List ℚ :=
  (l.enum.filter (fun p => p.1 % 2 = 1)).map Prod.snd

/-- The `{x: bb[i], y: bb[i+1]}` pairing loop of `createRegion` and
`convertToRegionPoints`.  A trailing odd coordinate (JavaScript
`undefined` y) is dropped here and excluded from every claim. -/
def pointsOf : List ℚ → List RPoint
  | x :: y :: rest => ⟨x, y⟩ :: pointsOf rest
  | _ => []

/-- Source `createRegion`: builds the region emitted for one bounding box of
one label value entry. -/
def createRegion (boundingBox : List ℚ) (text : Str) (tagName : Str)
    (pageNumber : Nat) : IRegion :=
  let xAxisValues := evenIndexEntries boundingBox
  let yAxisValues := oddIndexEntries boundingBox
  let left := jsMin xAxisValues
  let top := jsMin yAxisValues
  let right := jsMax xAxisValues
  let bottom := jsMax yAxisValues
  { id := createRegionIdFromBoundingBox boundingBox pageNumber
    type := RegionType.polygon
    tags := [tagName]
    boundingBox := { height := bottom - top, width := right - left, left := left, top := top }
    points := pointsOf boundingBox
    value := text
    pageNumber := pageNumber }

/-- Source `getBoundingBoxTextFromRegion`: the whitespace-split token of the
entry's text at the bounding box's index, or the empty string. -/
def getBoundingBoxTextFromRegion (formRegion : IFormRegion) (boundingBoxIndex : Nat) : Str :=
  let regionValues := splitOnChar ' ' formRegion.text
  if boundingBoxIndex < regionValues.length then regionValues.getD boundingBoxIndex []
  else []

/-- Source `convertLabelDataToRegions`: one region per bounding box per value
entry per label (the null-guards of the source are vacuous here because the
embedded lists are never null). -/
def convertLabelDataToRegions (labelData : ILabelData) : List IRegion :=
  labelData.labels.flatMap (fun label =>
    label.value.flatMap (fun formRegion =>
      formRegion.boundingBoxes.enum.map (fun bi =>
        createRegion bi.2 (getBoundingBoxTextFromRegion formRegion bi.1)
          label.label formRegion.page)))

/-- Source `convertRegionsToLabelData`: group regions by first tag in
first-occurrence order, emitting one value entry per region whose single
bounding box is decoded from the region id. -/
def convertRegionsToLabelData (regions : List IRegion) (assetName : Str) : ILabelData :=
  let fieldNames :=
    (dedupFirst (regions.map (fun region => region.tags.head?))).filterMap (fun o => o)
  { document := (splitOnChar '/' (decodeURIComponentChars assetName)).getLastD []
    labels := fieldNames.map (fun fieldName =>
      { label := fieldName
        key := none
        value := (regions.filter (fun region => fieldName ∈ region.tags)).map
          (fun region =>
            { page := region.pageNumber
              text := region.value
              boundingBoxes := [splitIdToFloats region.id] }) }) }

/-!
Region order index and the canvas component state.
-/

/-- Lookup in one page's order record.  A JavaScript object keyed by region
id is modelled as its assignment list; a later assignment to the same key
overwrites an earlier one, so lookup finds the last write. -/
def recLookup (rec : List (Str × Nat)) (key : Str) : Option Nat :=
  (rec.reverse.find? (fun kv => kv.1 = key)).map (fun kv => kv.2)

/-- The iteration of `getRegionOrder` over `regionOrders` via
`Array.prototype.some`: the first page record containing the id wins;
`pageIndex` tracks the array index. -/
def getRegionOrderAux (regionId : Str) :
    List (List (Str × Nat)) → Nat → IRegionOrder
  | [], _ => ⟨1, 0⟩
  | rec :: rest, pageIndex =>
    match recLookup rec regionId with
    | some order => ⟨pageIndex + 1, order⟩
    | none => getRegionOrderAux regionId rest (pageIndex + 1)

/-- Source `getRegionOrder`: the `(page, order)` of a region id, defaulting
to `{page: 1, order: 0}` when the id is in no page's record. -/
def getRegionOrder (regionOrders : List (List (Str × Nat))) (regionId : Str) :
    IRegionOrder :=
  getRegionOrderAux regionId regionOrders 0

/-- Source `compareRegionOrder`: page first, then order; never returns 0. -/
def compareRegionOrder (regionOrders : List (List (Str × Nat)))
    (r1 r2 : IRegion) : Int :=
  let order1 := getRegionOrder regionOrders r1.id
  let order2 := getRegionOrder regionOrders r2.id
  if order1.page = order2.page then
    if order1.order > order2.order then 1 else -1
  else if order1.page > order2.page then 1 else -1

/-- Insert a region into an already-sorted suffix, before the first element
it need not follow (comparator result `1` means "after"). -/
def insertRegionSorted (regionOrders : List (List (Str × Nat))) (r : IRegion) :
    List IRegion → List IRegion
  | [] => [r]
  | y :: ys =>
    if compareRegionOrder regionOrders r y = 1 then
      y :: insertRegionSorted regionOrders r ys
    else r :: y :: ys

/-- `Array.prototype.sort(compareRegionOrder)` modelled as a stable
comparison sort. -/
def sortRegions (regionOrders : List (List (Str × Nat))) :
    List IRegion → List IRegion
  | [] => []
  | r :: rest => insertRegionSorted regionOrders r (sortRegions regionOrders rest)

/-- The inner word loop of `buildRegionOrders`: returns the `(featureId,
order)` assignments made for one line's words together with the counter
value after the line. -/
def buildWordOrders (imageExtent ocrExtent : Extent) (page : Nat) :
    List OcrWord → Nat → List (Str × Nat) × Nat
  | [], order => ([], order)
  | w :: ws, order =>
    if shouldDisplayOcrWord w.text then
      let feature := createBoundingBoxVectorFeature w.text w.boundingBox imageExtent ocrExtent page
      let rest := buildWordOrders imageExtent ocrExtent page ws (order + 1)
      ((feature.id, order) :: rest.1, rest.2)
    else buildWordOrders imageExtent ocrExtent page ws order

/-- The line loop of `buildRegionOrders`, threading the order counter across
lines. -/
def buildLineOrders (imageExtent ocrExtent : Extent) (page : Nat) :
    List OcrLine → Nat → List (Str × Nat)
  | [], _ => []
  | line :: lines, order =>
    let res := buildWordOrders imageExtent ocrExtent page line.words order
    res.1 ++ buildLineOrders imageExtent ocrExtent page lines res.2

/-- The per-page body of `buildRegionOrders`: the assignment list written
into `regionOrders[ocr.page - 1]`, built by walking lines then words with a
counter starting at 0, skipping words that fail `shouldDisplayOcrWord`. -/
def buildPageOrders (imageExtent : Extent) (ocr : OcrPage) : List (Str × Nat) :=
  buildLineOrders imageExtent ⟨0, 0, ocr.width, ocr.height⟩ ocr.page ocr.lines 0

/-- Store `v` at index `i` of `l`, extending with empty records as
JavaScript array assignment extends with holes. -/
def setAtPad (l : List (List (Str × Nat))) (i : Nat) (v : List (Str × Nat)) :
    List (List (Str × Nat)) :=
  (l ++ List.replicate (i + 1 - l.length) []).set i v

/-- Source `buildRegionOrders`: one record per OCR page, written at array
index `page - 1`. -/
def buildRegionOrders (imageExtent : Extent) (ocrResults : List OcrPage) :
    List (List (Str × Nat)) :=
  ocrResults.foldl
    (fun acc ocr => setAtPad acc (ocr.page - 1) (buildPageOrders imageExtent ocr)) []

/-- The component state of `Canvas` restricted to what the engine mutates:
the asset's regions and label data, the selection, paging, the order index,
and the vector-feature surface held by the image map. -/
structure CanvasState where
  regions : List IRegion
  selectedRegionIds : List Str
  currentPage : Nat
  numPages : Nat
  regionOrders : List (List (Str × Nat))
  features : List MapFeature
  ocr : Option (List OcrPage)
  labelData : Option ILabelData
  assetName : Str
  imageExtent : Extent
  isError : Bool
  errorMessage : Option Str
deriving DecidableEq

/-- The truthiness test `selectedRegionIds.find((id) => r.id === id)` of the
source: a found empty string is falsy in JavaScript. -/
def isSelectedRegion (s : CanvasState) (r : IRegion) : Bool :=
  match s.selectedRegionIds.find? (fun id => id = r.id) with
  | some id => !id.isEmpty
  | none => false

/-- Source `getSelectedRegions`: the asset regions whose id is in the
selection list, in region-list order. -/
def getSelectedRegions (s : CanvasState) : List IRegion :=
  s.regions.filter (fun r => isSelectedRegion s r)

/-- Source `updateAssetRegions`: commits a region list and re-derives the
persisted label data from it. -/
def updateAssetRegions (s : CanvasState) (regions : List IRegion) : CanvasState :=
  { s with regions := regions
           labelData := some (convertRegionsToLabelData regions s.assetName) }

/-- Source `updateRegions`: append the updates whose id is not yet present,
sort everything with `compareRegionOrder`, and commit. -/
def updateRegions (s : CanvasState) (updates : List IRegion) : CanvasState :=
  let updatedRegions :=
    s.regions ++ updates.filter (fun u => s.regions.all (fun r => r.id ≠ u.id))
  updateAssetRegions s (sortRegions s.regionOrders updatedRegions)

/-- The `existedRegionsWithSameTag` filter of
`showMultiPageFieldWarningIfNecessary`: regions whose first tag
(`_.get(region, "tags[0]", "")`, i.e. empty-string default) equals the tag
name. -/
def regionsWithSameFirstTag (s : CanvasState) (tagName : Str) : List IRegion :=
  s.regions.filter (fun region => region.tags.headD [] = tagName)

/-- The `pageCount` of `showMultiPageFieldWarningIfNecessary`: the number of
distinct page numbers spanned by the union of the already-tagged regions and
the candidate regions. -/
def multiPagePageCount (s : CanvasState) (tagName : Str)
    (regions : List IRegion) : Nat :=
  (dedupFirst ((regionsWithSameFirstTag s tagName ++ regions).map
    (fun region => region.pageNumber))).length

/-- The user-facing conflict message, naming the tag and the page count. -/
def multiPageWarningMessage (tagName : Str) (pageCount : Nat) : Str :=
  ("Sorry, we don".toList) ++ ['\''] ++ ("t support cross-page regions with the same tag.".toList) ++
    (" You have regions with tag \"".toList) ++ tagName ++ ("\" across ".toList) ++
    natToStr pageCount ++ (" pages.".toList)

/-- Source `showMultiPageFieldWarningIfNecessary`: returns the state (with
the error surfaced when the cross-page invariant would break) and whether
the warning fired. -/
def showMultiPageFieldWarningIfNecessary (s : CanvasState) (tagName : Str)
    (regions : List IRegion) : CanvasState × Bool :=
  let pageCount := multiPagePageCount s tagName regions
  if pageCount > 1 then
    ({ s with isError := true
              errorMessage := some (multiPageWarningMessage tagName pageCount) }, true)
  else (s, false)

/-- Modelled from the spec: `CanvasHelpers.setSingleTag` lives in
`canvasHelpers.ts`, which is not part of the provided source; the spec says
applying a tag "replaces each selected region's tag list with `[tag]`"
("applying a new tag replaces rather than appends"). -/
def setSingleTag (tags : List Str) (tag : Str) : List Str :=
  let _ := tags
  [tag]

/-- Source `applyTag`: no-op on an empty tag or empty selection; abort with
the cross-page warning when necessary; otherwise replace each selected
region's tags with the single tag, commit via `updateRegions`, and clear the
selection. -/
def applyTag (s : CanvasState) (tag : Str) : CanvasState :=
  let selectedRegions := getSelectedRegions s
  if tag = [] ∨ selectedRegions = [] then s
  else
    let warn := showMultiPageFieldWarningIfNecessary s tag selectedRegions
    if warn.2 then warn.1
    else
      let mutated := s.regions.map (fun r =>
        if isSelectedRegion s r then { r with tags := setSingleTag r.tags tag } else r)
      let updates := selectedRegions.map (fun r => { r with tags := setSingleTag r.tags tag })
      let s2 := updateRegions { s with regions := mutated } updates
      { s2 with selectedRegionIds := [] }

/-- Source `onRegionDelete`: splice the region with the given id out of the
asset's region list and commit.  When the id is absent, `findIndex` yields
`-1` and JavaScript `splice(-1, 1)` removes the *last* element; that quirk
is modelled faithfully (no verified path reaches it). -/
def onRegionDelete (s : CanvasState) (id : Str) : CanvasState :=
  let currentRegions := s.regions
  let regions :=
    match currentRegions.findIdx? (fun region => region.id = id) with
    | some i => currentRegions.eraseIdx i
    | none => currentRegions.dropLast
  updateAssetRegions s regions

/-- Source `removeFromSelectedRegions`: deselect the region id; before the
splice it reads `getSelectedRegions()[iRegionId]` — the selection-list index
applied to the region-list-ordered selection — and deletes the id outright
when that (possibly different!) region has an empty tag list. -/
def removeFromSelectedRegions (s : CanvasState) (regionId : Str) : CanvasState :=
  match s.selectedRegionIds.findIdx? (fun id => id = regionId) with
  | none => s
  | some iRegionId =>
    let region := (getSelectedRegions s).get? iRegionId
    let s1 :=
      match region with
      | some r => if r.tags = [] then onRegionDelete s regionId else s
      | none => s
    { s1 with selectedRegionIds := s1.selectedRegionIds.eraseIdx iRegionId }

/-- Source `isRegionSelected` (via `getIndexOfSelectedRegionIds`). -/
def isRegionSelectedId (s : CanvasState) (regionId : Str) : Bool :=
  (s.selectedRegionIds.findIdx? (fun id => id = regionId)).isSome

/-- Source `convertToRegionBoundingBox`. -/
def convertToRegionBoundingBox (polygon : List ℚ) : RBoundingBox :=
  let xAxisValues := evenIndexEntries polygon
  let yAxisValues := oddIndexEntries polygon
  { height := jsMax yAxisValues - jsMin yAxisValues
    width := jsMax xAxisValues - jsMin xAxisValues
    left := jsMin xAxisValues
    top := jsMin yAxisValues }

/-- Source `convertToRegionPoints` (same pairing loop as `createRegion`). -/
def convertToRegionPoints (polygon : List ℚ) : List RPoint := pointsOf polygon

/-- In-place `selectedRegion.pageNumber = currentPage` on the first region
found with the id. -/
def setPageOfFirst (regions : List IRegion) (regionId : Str) (page : Nat) :
    List IRegion :=
  match regions.findIdx? (fun r => r.id = regionId) with
  | some i =>
    match regions.get? i with
    | some r => regions.set i { r with pageNumber := page }
    | none => regions
  | none => regions

/-- Source `addRegionsToAsset`: keep the asset regions not shadowed by an
incoming id, append the incoming regions, and commit. -/
def addRegionsToAsset (s : CanvasState) (regions : List IRegion) : CanvasState :=
  let regionsToBeKept := s.regions.filter (fun assetRegion =>
    regions.all (fun r => r.id ≠ assetRegion.id))
  updateAssetRegions s (regionsToBeKept ++ regions)

/-- Source `addRegionsToImageMap`: add features for the regions that have
none yet. -/
def addRegionsToImageMap (s : CanvasState) (regions : List IRegion) : CanvasState :=
  let regionsNotInFeatures := regions.filter (fun region =>
    s.features.all (fun feature => feature.id ≠ region.id))
  { s with features := s.features ++
      regionsNotInFeatures.map (fun region => convertRegionToFeature region s.imageExtent) }

/-- Source `addRegions`: into the asset, and into the map for the current
page only. -/
def addRegions (s : CanvasState) (regions : List IRegion) : CanvasState :=
  let s1 := addRegionsToAsset s regions
  addRegionsToImageMap s1 (regions.filter (fun region => region.pageNumber = s.currentPage))

/-- Source `addToSelectedRegions`: skip if already selected; an existing
region gets its page number fixed to the current page; a first-touch OCR
candidate is promoted into the region list; then the id is pushed onto the
selection. -/
def addToSelectedRegions (s : CanvasState) (regionId : Str) (text : Str)
    (polygon : List ℚ) : CanvasState :=
  if isRegionSelectedId s regionId then s
  else
    let s1 :=
      if (s.regions.findIdx? (fun region => region.id = regionId)).isSome then
        { s with regions := setPageOfFirst s.regions regionId s.currentPage }
      else
        addRegions s [{ id := regionId
                        type := RegionType.polygon
                        tags := []
                        boundingBox := convertToRegionBoundingBox polygon
                        points := convertToRegionPoints polygon
                        value := text
                        pageNumber := s.currentPage }]
    { s1 with selectedRegionIds := s1.selectedRegionIds ++ [regionId] }

/-- Source `handleFeatureSelect` (with the default `isToggle = true`):
toggling an already-selected feature deselects it, otherwise the feature is
selected (promoting it to a region when needed), the polygon being decoded
from the feature id. -/
def handleFeatureSelect (s : CanvasState) (feature : MapFeature) : CanvasState :=
  if isRegionSelectedId s feature.id then removeFromSelectedRegions s feature.id
  else addToSelectedRegions s feature.id feature.text (splitIdToFloats feature.id)

/-- Remove the first occurrence of an id from the selection list
(`getIndexOfSelectedRegionIds` + `splice`). -/
def eraseFirstId (ids : List Str) (id : Str) : List Str :=
  match ids.findIdx? (fun x => x = id) with
  | some i => ids.eraseIdx i
  | none => ids

/-- Source `deleteRegionsFromSelectedRegionIds`. -/
def deleteRegionsFromSelectedRegionIds (s : CanvasState)
    (regions : List IRegion) : CanvasState :=
  { s with selectedRegionIds :=
      regions.foldl (fun ids region => eraseFirstId ids region.id) s.selectedRegionIds }

/-- Source `deleteRegionsFromAsset`: drop the asset regions whose id occurs
among the given regions and commit. -/
def deleteRegionsFromAsset (s : CanvasState) (regions : List IRegion) : CanvasState :=
  updateAssetRegions s (s.regions.filter (fun assetRegion =>
    regions.all (fun r => r.id ≠ assetRegion.id)))

/-- Source `deleteRegionsFromImageMap` as a function of the feature surface:
the source selects `allFeatures.filter(!isOcrProposal).filter(id among
regions)` and removes exactly those features, so the remaining surface is
the complement of that selection. -/
def deleteRegionsFromImageMap (regions : List IRegion)
    (allFeatures : List MapFeature) : List MapFeature :=
  allFeatures.filter (fun feature =>
    !(!feature.isOcrProposal && regions.any (fun region => region.id = feature.id)))

/-- `deleteRegionsFromImageMap` acting on the component state. -/
def deleteRegionsFromImageMapState (s : CanvasState)
    (regions : List IRegion) : CanvasState :=
  { s with features := deleteRegionsFromImageMap regions s.features }

/-- Source `deleteRegions`. -/
def deleteRegions (s : CanvasState) (regions : List IRegion) : CanvasState :=
  let s1 := deleteRegionsFromSelectedRegionIds s regions
  let s2 := deleteRegionsFromAsset s1 regions
  deleteRegionsFromImageMapState s2 regions

/-- Source `getOcrResultForCurrentPage`:
`ocr.analyzeResult.readResults[currentPage - 1]` (the `imageUri` guard is an
interface detail of rendering and is not modelled). -/
def getOcrResultForCurrentPage (s : CanvasState) : Option OcrPage :=
  match s.ocr with
  | none => none
  | some readResults => readResults.get? (s.currentPage - 1)

/-- Source `drawOcr`: the OCR-proposal features for the current page's
recognized words that pass the display filter. -/
def drawOcrFeatures (s : CanvasState) : List MapFeature :=
  match getOcrResultForCurrentPage s with
  | none => []
  | some ocr =>
    ocr.lines.flatMap (fun line =>
      line.words.filterMap (fun word =>
        if shouldDisplayOcrWord word.text then
          some (createBoundingBoxVectorFeature word.text word.boundingBox
            s.imageExtent ⟨0, 0, ocr.width, ocr.height⟩ ocr.page)
        else none))

/-- Source `loadLabelData`: merge the regions derived from the persisted
label data into the asset (the stale-asset identity guard is modelled as
always current). -/
def loadLabelData (s : CanvasState) : CanvasState :=
  match s.labelData with
  | none => s
  | some labelData =>
    let regionsFromLabelData := convertLabelDataToRegions labelData
    if regionsFromLabelData.length > 0 then addRegions s regionsFromLabelData
    else s

/-- Source `goToPage`.  The out-of-range guard in the source has an *empty*
`if` body (its comment says "invalid page number, just return", but there is
no `return`), so the pruning of selected untagged regions below runs for
every target.  The external page renderer (`switchToTargetPage`) commits
`currentPage` only when it succeeds; for an out-of-range page it fails, so
the rest of the transition (OCR redraw, label reload) is abandoned — after
the pruning has already been committed. -/
def goToPage (s : CanvasState) (targetPage : Nat) : CanvasState :=
  let selectedRegions := getSelectedRegions s
  let s1 := deleteRegionsFromSelectedRegionIds s selectedRegions
  let selectedRegionsWithoutTag := selectedRegions.filter (fun region => region.tags = [])
  let s2 := deleteRegionsFromAsset s1 selectedRegionsWithoutTag
  let s3 := deleteRegionsFromImageMapState s2 selectedRegionsWithoutTag
  if 1 ≤ targetPage ∧ targetPage ≤ s3.numPages then
    let s4 := { s3 with currentPage := targetPage }
    let s5 := { s4 with features := drawOcrFeatures s4 }
    loadLabelData s5
  else s3

/-!
Claim-side reference definitions, written from the specification's words.
-/

/-- Reference lookup written from the claim's words: the first page whose
index contains the region id, carrying a 1-based page counter. -/
def specFindPage : List (List (Str × Nat)) → Str → Nat → Option IRegionOrder
  | [], _, _ => none
  | rec :: rest, id, page =>
    match recLookup rec id with
    | some order => some ⟨page, order⟩
    | none => specFindPage rest id (page + 1)

/-- Reference region order written from the claim's words: the `(page,
order)` found in the index, substituting the default `{page: 1, order: 0}`
for an id absent from every page's index. -/
def specRegionOrder (orders : List (List (Str × Nat))) (id : Str) : IRegionOrder :=
  (specFindPage orders id 1).getD ⟨1, 0⟩

/-- The observable content of a label for the round-trip claim: its field
name and the flattened list of `(page, bounding box)` pairs. -/
def labelView (lab : ILabel) : Str × List (Nat × List ℚ) :=
  (lab.label, lab.value.flatMap (fun fr => fr.boundingBoxes.map (fun b => (fr.page, b))))

/-- Flatten a vertex list into the `[x₀,y₀,x₁,y₁,…]` shape the source
consumes. -/
def flattenPoints (pts : List (ℚ × ℚ)) : List ℚ :=
  pts.flatMap (fun p => [p.1, p.2])

/-- The digit list behind `natToStr` (a lone `0` for zero). -/
def natStrDigs (n : Nat) : List Nat := if n = 0 then [0] else natDigs n

/-- The continuation after a rendered number must not begin with a digit for
the parser to stop exactly there. -/
def HeadNotDigit (s : Str) : Prop := ∀ c cs, s = c :: cs → digit? c = none

/-- The regions emitted for one label by `convertLabelDataToRegions` (its
inner double loop). -/
def regionsOfLabel (lab : ILabel) : List IRegion :=
  lab.value.flatMap (fun formRegion =>
    formRegion.boundingBoxes.enum.map (fun bi =>
      createRegion bi.2 (getBoundingBoxTextFromRegion formRegion bi.1)
        lab.label formRegion.page))

/-- The untagged, selected region of the C1 failing input. -/
def c1Region : IRegion :=
  { id := ['a'], type := RegionType.polygon, tags := [], boundingBox := ⟨0, 0, 0, 0⟩,
    points := [], value := [], pageNumber := 1 }

/-- The C1 failing input: a one-page asset with one selected untagged
region. -/
def c1State : CanvasState :=
  { regions := [c1Region], selectedRegionIds := [['a']], currentPage := 1, numPages := 1,
    regionOrders := [], features := [], ocr := none, labelData := none, assetName := [],
    imageExtent := ⟨0, 0, 1, 1⟩, isError := false, errorMessage := none }

/-- The tagged region list entry of the C8 failing input (listed first in
the asset's region list). -/
def c8RegionA : IRegion :=
  { id := ['a'], type := RegionType.polygon, tags := [['t']], boundingBox := ⟨0, 0, 0, 0⟩,
    points := [], value := [], pageNumber := 1 }

/-- The untagged region of the C8 failing input (listed second). -/
def c8RegionB : IRegion :=
  { id := ['b'], type := RegionType.polygon, tags := [], boundingBox := ⟨0, 0, 0, 0⟩,
    points := [], value := [], pageNumber := 1 }

/-- The C8 failing input: region "b" was selected before region "a", so the
selection list order (`["b", "a"]`) differs from the region list order
(`[a, b]`). -/
def c8State : CanvasState :=
  { regions := [c8RegionA, c8RegionB], selectedRegionIds := [['b'], ['a']],
    currentPage := 1, numPages := 1, regionOrders := [], features := [], ocr := none,
    labelData := none, assetName := [], imageExtent := ⟨0, 0, 1, 1⟩, isError := false,
    errorMessage := none }

/-- The feature whose toggling deselects region "a" in the C8 failing
input. -/
def c8Feature : MapFeature :=
  { id := ['a'], text := [], coordinates := [], isOcrProposal := false }

/-- The page-1 region already tagged "Total" of the C2 example. -/
def c2RegionTotal : IRegion :=
  { id := ['r', '1'], type := RegionType.polygon, tags := ["Total".toList],
    boundingBox := ⟨0, 0, 0, 0⟩, points := [], value := [], pageNumber := 1 }

/-- The newly selected untagged region on page 2 of the C2 example. -/
def c2RegionNew : IRegion :=
  { id := ['r', '2'], type := RegionType.polygon, tags := [],
    boundingBox := ⟨0, 0, 0, 0⟩, points := [], value := [], pageNumber := 2 }

/-- The C2 example state: one region tagged "Total" on page 1, one selected
untagged region on page 2. -/
def c2State : CanvasState :=
  { regions := [c2RegionTotal, c2RegionNew], selectedRegionIds := [['r', '2']],
    currentPage := 2, numPages := 2, regionOrders := [], features := [], ocr := none,
    labelData := none, assetName := [], imageExtent := ⟨0, 0, 1, 1⟩, isError := false,
    errorMessage := none }

/-- The one-label, one-box label data of the C3 witness. -/
def c3Data : ILabelData :=
  { document := [],
    labels := [{ label := ['a'], key := none,
                 value := [{ page := 1, text := ['x'],
                             boundingBoxes := [[(1 : ℚ)/2, 1/2]] }] }] }

/-!
Lemmas about the digit, rendering and parsing machinery, leading to the
decode-of-encode round trip for region ids.
-/

theorem natDigsF_zero (f : Nat) : natDigsF f 0 = [] := by cases f <;> rfl

theorem natDigsF_succ (f n : Nat) :
    natDigsF (f + 1) (n + 1) = natDigsF f ((n + 1) / 10) ++ [(n + 1) % 10] := rfl

theorem natDigsF_congr (n : Nat) : ∀ f f' : Nat, n ≤ f → n ≤ f' →
    natDigsF f n = natDigsF f' n := by
  induction n using Nat.strong_induction_on with
  | _ n ih =>
    intro f f' hf hf'
    cases n with
    | zero => rw [natDigsF_zero, natDigsF_zero]
    | succ m =>
      cases f with
      | zero => omega
      | succ g =>
        cases f' with
        | zero => omega
        | succ g' =>
          rw [natDigsF_succ, natDigsF_succ]
          have hd : (m + 1) / 10 < m + 1 := Nat.div_lt_self (Nat.succ_pos m) (by omega)
          rw [ih ((m + 1) / 10) hd g g' (by omega) (by omega)]

theorem natDigs_eq (n : Nat) (h : n ≠ 0) :
    natDigs n = natDigs (n / 10) ++ [n % 10] := by
  obtain ⟨m, rfl⟩ : ∃ m, n = m + 1 := ⟨n - 1, by omega⟩
  show natDigsF (m + 1) (m + 1) = _
  rw [natDigsF_succ]
  have hd : (m + 1) / 10 < m + 1 := Nat.div_lt_self (Nat.succ_pos m) (by omega)
  rw [natDigsF_congr ((m + 1) / 10) m ((m + 1) / 10) (by omega) (by omega)]
  rfl

theorem digitsVal_append_single (ds : List Nat) (d : Nat) :
    digitsVal (ds ++ [d]) = digitsVal ds * 10 + d := by
  unfold digitsVal
  rw [List.foldl_append]
  rfl

theorem digitsVal_natDigs (n : Nat) : digitsVal (natDigs n) = n := by
  induction n using Nat.strong_induction_on with
  | _ n ih =>
    by_cases h : n = 0
    · subst h; rfl
    · rw [natDigs_eq n h, digitsVal_append_single,
        ih (n / 10) (Nat.div_lt_self (by omega) (by omega))]
      omega

theorem natDigs_mem_lt (n : Nat) : ∀ d ∈ natDigs n, d < 10 := by
  induction n using Nat.strong_induction_on with
  | _ n ih =>
    by_cases h : n = 0
    · subst h; intro d hd; simp [natDigs, natDigsF_zero] at hd
    · rw [natDigs_eq n h]
      intro d hd
      rcases List.mem_append.mp hd with h1 | h2
      · exact ih (n / 10) (Nat.div_lt_self (by omega) (by omega)) d h1
      · simp at h2; omega

theorem natDigs_length_le (e : Nat) : ∀ n, n < 10 ^ e → (natDigs n).length ≤ e := by
  induction e with
  | zero =>
    intro n h
    have : n = 0 := by simpa using h
    subst this
    simp [natDigs, natDigsF_zero]
  | succ e ihe =>
    intro n h
    by_cases h0 : n = 0
    · subst h0; simp [natDigs, natDigsF_zero]
    · rw [natDigs_eq n h0]
      have hlt : n / 10 < 10 ^ e := by
        rw [Nat.div_lt_iff_lt_mul (by omega)]
        calc n < 10 ^ (e + 1) := h
        _ = 10 ^ e * 10 := by ring
      have := ihe (n / 10) hlt
      simp [List.length_append]
      omega

theorem digitsVal_replicate_zero (k : Nat) (ds : List Nat) :
    digitsVal (List.replicate k 0 ++ ds) = digitsVal ds := by
  induction k with
  | zero => rfl
  | succ k ih =>
    rw [List.replicate_succ]
    simpa [digitsVal, List.foldl_cons] using ih

theorem digitsVal_fracDigs (f e : Nat) : digitsVal (fracDigs f e) = f := by
  unfold fracDigs
  rw [digitsVal_replicate_zero, digitsVal_natDigs]

theorem fracDigs_length (f e : Nat) (h : f < 10 ^ e) : (fracDigs f e).length = e := by
  unfold fracDigs
  have := natDigs_length_le e f h
  simp [List.length_append, List.length_replicate]
  omega

theorem fracDigs_mem_lt (f e : Nat) : ∀ d ∈ fracDigs f e, d < 10 := by
  intro d hd
  unfold fracDigs at hd
  rcases List.mem_append.mp hd with h1 | h2
  · have := List.eq_of_mem_replicate h1; omega
  · exact natDigs_mem_lt f d h2

theorem digit?_digitChar (d : Nat) (h : d < 10) : digit? (digitChar d) = some d := by
  interval_cases d <;> rfl

theorem natToStr_eq (n : Nat) : natToStr n = (natStrDigs n).map digitChar := by
  unfold natToStr natStrDigs
  split <;> rfl

theorem natStrDigs_mem_lt (n : Nat) : ∀ d ∈ natStrDigs n, d < 10 := by
  unfold natStrDigs
  split
  · intro d hd; simp at hd; omega
  · exact natDigs_mem_lt n

theorem digitsVal_natStrDigs (n : Nat) : digitsVal (natStrDigs n) = n := by
  unfold natStrDigs
  split
  · subst ‹n = 0›; rfl
  · exact digitsVal_natDigs n

theorem natStrDigs_ne_nil (n : Nat) : natStrDigs n ≠ [] := by
  unfold natStrDigs
  split
  · simp
  · rw [natDigs_eq n ‹n ≠ 0›]; simp

theorem headNotDigit_nil : HeadNotDigit [] := by intro c cs h; cases h

theorem headNotDigit_cons {c : Char} (h : digit? c = none) (cs : Str) :
    HeadNotDigit (c :: cs) := by
  intro c' cs' he
  cases he
  exact h

theorem takeDigits_spec (ds : List Nat) (h : ∀ d ∈ ds, d < 10) (rest : Str)
    (hrest : HeadNotDigit rest) :
    takeDigits (ds.map digitChar ++ rest) = (ds, rest) := by
  induction ds with
  | nil =>
    simp only [List.map_nil, List.nil_append]
    cases rest with
    | nil => rfl
    | cons c cs =>
      unfold takeDigits
      rw [hrest c cs rfl]
  | cons d ds ih =>
    simp only [List.map_cons, List.cons_append]
    unfold takeDigits
    rw [digit?_digitChar d (h d (by simp))]
    rw [ih (fun x hx => h x (by simp [hx])) ]

theorem digit?_dot : digit? '.' = none := rfl

theorem digit?_colon : digit? ':' = none := rfl

theorem digit?_comma : digit? ',' = none := rfl

theorem parseFloatUnsigned_with_dot (s : Str) (ids : List Nat) (r2 : Str)
    (h : takeDigits s = (ids, '.' :: r2)) :
    parseFloatUnsigned s =
      if ids = [] ∧ (takeDigits r2).1 = [] then none
      else some ((digitsVal ids : ℚ) + fracVal (takeDigits r2).1) := by
  simp only [parseFloatUnsigned, h]
  rfl

theorem parseFloatUnsigned_render (a e : Nat) (he : e ≠ 0) (rest : Str)
    (hrest : HeadNotDigit rest) :
    parseFloatUnsigned (natToStr (a / 10 ^ e) ++
      ('.' :: ((fracDigs (a % 10 ^ e) e).map digitChar ++ rest))) =
    some ((a : ℚ) / 10 ^ e) := by
  have hmod : a % 10 ^ e < 10 ^ e := Nat.mod_lt a (Nat.pos_pow_of_pos e (by omega))
  have h2 : takeDigits ((fracDigs (a % 10 ^ e) e).map digitChar ++ rest) =
      (fracDigs (a % 10 ^ e) e, rest) :=
    takeDigits_spec _ (fracDigs_mem_lt _ _) _ hrest
  have h1 : takeDigits (natToStr (a / 10 ^ e) ++
      ('.' :: ((fracDigs (a % 10 ^ e) e).map digitChar ++ rest))) =
      (natStrDigs (a / 10 ^ e), '.' :: ((fracDigs (a % 10 ^ e) e).map digitChar ++ rest)) := by
    rw [natToStr_eq]
    exact takeDigits_spec _ (natStrDigs_mem_lt _) _ (headNotDigit_cons digit?_dot _)
  rw [parseFloatUnsigned_with_dot _ _ _ h1, h2]
  rw [if_neg (fun hc => natStrDigs_ne_nil _ hc.1)]
  congr 1
  rw [digitsVal_natStrDigs]
  unfold fracVal
  rw [digitsVal_fracDigs, fracDigs_length _ _ hmod]
  have key : ((10 : ℚ) ^ e) * ((a / 10 ^ e : ℕ) : ℚ) + ((a % 10 ^ e : ℕ) : ℚ) = (a : ℚ) := by
    exact_mod_cast Nat.div_add_mod a (10 ^ e)
  have hne : ((10 : ℚ) ^ e) ≠ 0 := by positivity
  field_simp
  linarith [key]

theorem parseFloat_cons (c : Char) (cs : Str) :
    parseFloat (c :: cs) =
      if c = '-' then (parseFloatUnsigned cs).map (fun q => -q)
      else if c = '+' then parseFloatUnsigned cs
      else parseFloatUnsigned (c :: cs) := by
  simp only [parseFloat]

theorem parseFloat_of_head_digit (c : Char) (cs : Str) (d : Nat)
    (h : digit? c = some d) :
    parseFloat (c :: cs) = parseFloatUnsigned (c :: cs) := by
  rw [parseFloat_cons, if_neg, if_neg]
  · intro he; subst he; rw [digit?] at h; simp at h
  · intro he; subst he; rw [digit?] at h; simp at h

theorem intFracToStr_shape (m : ℤ) (e : Nat) (he : e ≠ 0) :
    intFracToStr m e = (if m < 0 then ['-'] else []) ++
      (natToStr (m.natAbs / 10 ^ e) ++
        ('.' :: (fracDigs (m.natAbs % 10 ^ e) e).map digitChar)) := by
  simp only [intFracToStr, if_neg he]
  rw [List.append_assoc]

theorem parseFloat_intFracToStr (m : ℤ) (e : Nat) (he : e ≠ 0) (rest : Str)
    (hrest : HeadNotDigit rest) :
    parseFloat (intFracToStr m e ++ rest) = some ((m : ℚ) / 10 ^ e) := by
  have hshape : ∀ a : Nat, parseFloat (natToStr (a / 10 ^ e) ++
      ('.' :: ((fracDigs (a % 10 ^ e) e).map digitChar ++ rest))) =
      some ((a : ℚ) / 10 ^ e) := by
    intro a
    obtain ⟨d0, ds, hds⟩ : ∃ d0 ds, natStrDigs (a / 10 ^ e) = d0 :: ds := by
      cases hnd : natStrDigs (a / 10 ^ e) with
      | nil => exact absurd hnd (natStrDigs_ne_nil _)
      | cons d0 ds => exact ⟨d0, ds, rfl⟩
    have hd0 : d0 < 10 := natStrDigs_mem_lt _ d0 (by rw [hds]; simp)
    rw [natToStr_eq, hds, List.map_cons, List.cons_append,
      parseFloat_of_head_digit _ _ d0 (digit?_digitChar d0 hd0),
      ← List.cons_append, ← List.map_cons, ← hds, ← natToStr_eq]
    exact parseFloatUnsigned_render a e he rest hrest
  have hmain : ∀ a : Nat, parseFloatUnsigned (natToStr (a / 10 ^ e) ++
      ('.' :: ((fracDigs (a % 10 ^ e) e).map digitChar ++ rest))) =
      some ((a : ℚ) / 10 ^ e) := fun a => parseFloatUnsigned_render a e he rest hrest
  rw [intFracToStr_shape m e he]
  by_cases hm : m < 0
  · rw [if_pos hm]
    have hms : (['-'] ++ (natToStr (m.natAbs / 10 ^ e) ++
        ('.' :: (fracDigs (m.natAbs % 10 ^ e) e).map digitChar))) ++ rest =
        '-' :: (natToStr (m.natAbs / 10 ^ e) ++
          ('.' :: ((fracDigs (m.natAbs % 10 ^ e) e).map digitChar ++ rest))) := by
      rw [List.append_assoc, List.singleton_append, List.append_assoc, List.cons_append]
    rw [hms, parseFloat_cons, if_pos rfl, hmain m.natAbs]
    simp only [Option.map_some']
    congr 1
    have habs : ((m.natAbs : ℚ)) = -(m : ℚ) := by
      rw [Int.cast_natAbs, abs_of_neg hm]
      push_cast
      ring
    rw [habs]
    ring
  · rw [if_neg hm]
    have hms : (natToStr (m.natAbs / 10 ^ e) ++
        ('.' :: (fracDigs (m.natAbs % 10 ^ e) e).map digitChar)) ++ rest =
        natToStr (m.natAbs / 10 ^ e) ++
          ('.' :: ((fracDigs (m.natAbs % 10 ^ e) e).map digitChar ++ rest)) := by
      rw [List.append_assoc, List.cons_append]
    rw [List.nil_append, hms, hshape m.natAbs]
    congr 1
    have habs : ((m.natAbs : ℚ)) = (m : ℚ) := by
      rw [Int.cast_natAbs, abs_of_nonneg (not_lt.mp hm)]
    rw [habs]

theorem parseFloat_floatToStr (q : ℚ) (hq : IsDec q) (rest : Str)
    (hrest : HeadNotDigit rest) :
    parseFloat (floatToStr q ++ rest) = some q := by
  unfold floatToStr
  rw [parseFloat_intFracToStr _ _ q.den_nz rest hrest]
  congr 1
  have h1 : (((q * 10 ^ q.den).num : ℤ) : ℚ) = q * 10 ^ q.den :=
    (Rat.den_eq_one_iff _).mp hq
  rw [h1]
  have hne : ((10 : ℚ) ^ q.den) ≠ 0 := by positivity
  field_simp

theorem parseFloatD_floatToStr (q : ℚ) (hq : IsDec q) (rest : Str)
    (hrest : HeadNotDigit rest) :
    parseFloatD (floatToStr q ++ rest) = q := by
  unfold parseFloatD
  rw [parseFloat_floatToStr q hq rest hrest]
  rfl

theorem parseFloatD_floatToStr_nil (q : ℚ) (hq : IsDec q) :
    parseFloatD (floatToStr q) = q := by
  have := parseFloatD_floatToStr q hq [] headNotDigit_nil
  simpa using this

theorem splitOnChar_ne_nil (sep : Char) (s : Str) : splitOnChar sep s ≠ [] := by
  induction s with
  | nil => simp [splitOnChar]
  | cons c rest ih =>
    simp only [splitOnChar]
    split
    · simp
    · cases hsp : splitOnChar sep rest with
      | nil => simp
      | cons t ts => simp

theorem splitOnChar_cons_sep (sep : Char) (rest : Str) :
    splitOnChar sep (sep :: rest) = [] :: splitOnChar sep rest := by
  simp [splitOnChar]

theorem splitOnChar_cons_ne (sep c : Char) (rest : Str) (h : ¬ c = sep) :
    splitOnChar sep (c :: rest) =
      (c :: (splitOnChar sep rest).headI) :: (splitOnChar sep rest).tail := by
  simp only [splitOnChar, if_neg h]
  cases hsp : splitOnChar sep rest with
  | nil => exact absurd hsp (splitOnChar_ne_nil sep rest)
  | cons t ts => simp

theorem splitOnChar_no_sep (sep : Char) (s : Str) (h : ∀ c ∈ s, ¬ c = sep) :
    splitOnChar sep s = [s] := by
  induction s with
  | nil => rfl
  | cons c rest ih =>
    rw [splitOnChar_cons_ne sep c rest (h c (by simp)),
      ih (fun x hx => h x (by simp [hx]))]
    simp

theorem splitOnChar_append_pre (sep : Char) (x s : Str) (hx : ∀ c ∈ x, ¬ c = sep) :
    splitOnChar sep (x ++ s) =
      (x ++ (splitOnChar sep s).headI) :: (splitOnChar sep s).tail := by
  induction x with
  | nil =>
    simp only [List.nil_append]
    cases hsp : splitOnChar sep s with
    | nil => exact absurd hsp (splitOnChar_ne_nil sep s)
    | cons t ts => simp
  | cons c cx ih =>
    rw [List.cons_append, splitOnChar_cons_ne sep c (cx ++ s) (hx c (by simp)),
      ih (fun a ha => hx a (by simp [ha]))]
    simp

theorem splitOnChar_joinSep (sep : Char) : ∀ (xs : List Str) (hne : xs ≠ [])
    (_ : ∀ x ∈ xs, ∀ c ∈ x, ¬ c = sep) (suffix : Str)
    (_ : ∀ c ∈ suffix, ¬ c = sep),
    splitOnChar sep (joinSep sep xs ++ suffix) =
      xs.dropLast ++ [xs.getLast hne ++ suffix]
  | [], hne, _, _, _ => absurd rfl hne
  | [x], _, hxs, suffix, hsuf => by
    show splitOnChar sep (x ++ suffix) = [x ++ suffix]
    rw [splitOnChar_append_pre sep x suffix (hxs x (by simp)),
      splitOnChar_no_sep sep suffix hsuf]
    simp
  | x :: y :: ys, _, hxs, suffix, hsuf => by
    have hrec := splitOnChar_joinSep sep (y :: ys) (by simp)
      (fun a ha c hc => hxs a (by simp [ha]) c hc) suffix hsuf
    show splitOnChar sep ((x ++ sep :: joinSep sep (y :: ys)) ++ suffix) = _
    rw [List.append_assoc, List.cons_append,
      splitOnChar_append_pre sep x _ (hxs x (by simp)),
      splitOnChar_cons_sep sep _, hrec]
    simp only [List.headI_cons, List.append_nil]
    have hdl : (x :: y :: ys).dropLast = x :: (y :: ys).dropLast := rfl
    have hgl : ∀ h : x :: y :: ys ≠ [],
        (x :: y :: ys).getLast h = (y :: ys).getLast (by simp) :=
      fun _ => List.getLast_cons (by simp)
    rw [hdl, hgl]
    rfl

theorem digitChar_ne_of_none (d : Nat) (hd : d < 10) (c : Char)
    (hc : digit? c = none) : ¬ digitChar d = c := by
  intro he
  have := digit?_digitChar d hd
  rw [he, hc] at this
  cases this

theorem natToStr_mem_digit (n : Nat) (c : Char) (hc : c ∈ natToStr n) :
    ∃ d, d < 10 ∧ c = digitChar d := by
  rw [natToStr_eq] at hc
  rcases List.mem_map.mp hc with ⟨d, hd, rfl⟩
  exact ⟨d, natStrDigs_mem_lt n d hd, rfl⟩

theorem intFracToStr_mem (m : ℤ) (e : Nat) (c : Char) (hc : c ∈ intFracToStr m e) :
    c = '-' ∨ c = '.' ∨ ∃ d, d < 10 ∧ c = digitChar d := by
  simp only [intFracToStr] at hc
  rcases List.mem_append.mp hc with h1 | h2
  · rcases List.mem_append.mp h1 with hs | hn
    · left
      split at hs
      · simpa using hs
      · simp at hs
    · right; right; exact natToStr_mem_digit _ c hn
  · split at h2
    · simp at h2
    · rcases List.mem_cons.mp h2 with rfl | h3
      · right; left; rfl
      · right; right
        rcases List.mem_map.mp h3 with ⟨d, hd, rfl⟩
        exact ⟨d, fracDigs_mem_lt _ _ d hd, rfl⟩

theorem floatToStr_ne_comma (q : ℚ) (c : Char) (hc : c ∈ floatToStr q) :
    ¬ c = ',' := by
  rcases intFracToStr_mem _ _ c hc with rfl | rfl | ⟨d, hd, rfl⟩
  · decide
  · decide
  · exact digitChar_ne_of_none d hd ',' digit?_comma

theorem natToStr_ne_comma (n : Nat) (c : Char) (hc : c ∈ natToStr n) :
    ¬ c = ',' := by
  rcases natToStr_mem_digit n c hc with ⟨d, hd, rfl⟩
  exact digitChar_ne_of_none d hd ',' digit?_comma

theorem map_dropLast {α β : Type} (f : α → β) :
    ∀ l : List α, (l.map f).dropLast = l.dropLast.map f
  | [] => rfl
  | [_] => rfl
  | a :: b :: l => by
    show f a :: ((b :: l).map f).dropLast = f a :: (((b :: l).dropLast).map f)
    rw [map_dropLast f (b :: l)]

/-- Core round trip: decoding the encoded region id with
`split(",").map(parseFloat)` recovers the encoded coordinates (the page
suffix rides on the last token and is ignored by `parseFloat`). -/
theorem splitIdToFloats_createRegionId (pts : List ℚ) (page : Nat)
    (hne : pts ≠ []) (hdec : ∀ q ∈ pts, IsDec q) :
    splitIdToFloats (createRegionIdFromBoundingBox pts page) = pts := by
  unfold splitIdToFloats createRegionIdFromBoundingBox
  have hxs : pts.map floatToStr ≠ [] := by simpa using hne
  have hchars : ∀ x ∈ pts.map floatToStr, ∀ c ∈ x, ¬ c = ',' := by
    intro x hx c hc
    rcases List.mem_map.mp hx with ⟨q, _, rfl⟩
    exact floatToStr_ne_comma q c hc
  have hsuf : ∀ c ∈ ':' :: natToStr page, ¬ c = ',' := by
    intro c hc
    rcases List.mem_cons.mp hc with rfl | hc'
    · decide
    · exact natToStr_ne_comma page c hc'
  rw [splitOnChar_joinSep ',' (pts.map floatToStr) hxs hchars _ hsuf]
  rw [List.map_append, map_dropLast, List.map_map]
  have h1 : pts.dropLast.map (parseFloatD ∘ floatToStr) = pts.dropLast := by
    rw [List.map_congr_left (g := id), List.map_id]
    intro a ha
    exact parseFloatD_floatToStr_nil a (hdec a (List.dropLast_subset pts ha))
  have h2 : parseFloatD ((pts.map floatToStr).getLast hxs ++ (':' :: natToStr page)) =
      pts.getLast hne := by
    rw [List.getLast_map]
    exact parseFloatD_floatToStr (pts.getLast hne)
      (hdec _ (List.getLast_mem hne)) _ (headNotDigit_cons digit?_colon _)
  rw [h1]
  simp only [List.map_cons, List.map_nil, h2]
  exact List.dropLast_append_getLast hne

/-!
Claim theorems.
-/

/-- C7: for every non-empty even-length coordinate list of finite decimals
and every page number, decoding the encoded region id — splitting on `","`
and parsing each token as a float, the page suffix being discarded by the
parser — reconstructs the same coordinate sequence (decode ∘ encode round
trip, within floating-point formatting tolerance, which the finite-decimal
hypothesis makes exact). -/
theorem c7_region_id_roundtrip (pts : List ℚ) (page : Nat) (hne : pts ≠ [])
    (heven : pts.length % 2 = 0) (hdec : ∀ q ∈ pts, IsDec q) :
    splitIdToFloats (createRegionIdFromBoundingBox pts page) = pts := by
  have := heven
  exact splitIdToFloats_createRegionId pts page hne hdec

theorem c7_region_id_roundtrip_witness :
    (([(1 : ℚ)/2, 3/4] : List ℚ) ≠ [] ∧ ([(1 : ℚ)/2, 3/4] : List ℚ).length % 2 = 0 ∧
      (∀ q ∈ ([(1 : ℚ)/2, 3/4] : List ℚ), IsDec q)) ∧
    splitIdToFloats (createRegionIdFromBoundingBox [(1 : ℚ)/2, 3/4] 2) = [(1 : ℚ)/2, 3/4] :=
  ⟨⟨by simp, by rfl, by with_unfolding_all decide⟩,
    c7_region_id_roundtrip [(1 : ℚ)/2, 3/4] 2 (by simp) (by rfl)
      (by with_unfolding_all decide)⟩

/-- C10: deleting regions removes only features whose `isOcrProposal`
property is false, so the OCR candidate overlay of the vector-feature
surface is unchanged by any region deletion. -/
theorem c10_delete_preserves_ocr_proposals (regions : List IRegion)
    (features : List MapFeature) :
    (deleteRegionsFromImageMap regions features).filter (fun f => f.isOcrProposal) =
      features.filter (fun f => f.isOcrProposal) := by
  unfold deleteRegionsFromImageMap
  rw [List.filter_filter]
  apply List.filter_congr
  intro a _
  cases h : a.isOcrProposal <;> simp [h]

theorem displayCoordinatesOf_flatten (iw ihg ow oh : ℚ) :
    ∀ pts : List (ℚ × ℚ), displayCoordinatesOf iw ihg ow oh (flattenPoints pts) =
      pts.map (fun p => (jsRound (p.1 / ow * iw), jsRound ((1 - p.2 / oh) * ihg)))
  | [] => rfl
  | p :: rest => by
    have hf : flattenPoints (p :: rest) = p.1 :: p.2 :: flattenPoints rest := by
      simp [flattenPoints]
    rw [hf]
    show (jsRound (p.1 / ow * iw), jsRound ((1 - p.2 / oh) * ihg)) ::
        displayCoordinatesOf iw ihg ow oh (flattenPoints rest) = _
    rw [displayCoordinatesOf_flatten iw ihg ow oh rest]
    rfl

/-- C6: the OCR-pixel-to-display-pixel transform of
`createBoundingBoxVectorFeature` maps each vertex `(x, y)` to
`(round((x/ocrWidth)·imageWidth), round((1 − y/ocrHeight)·imageHeight))`
(widths and heights being the extent differences); in particular the OCR
word box `[10,20,50,20,50,40,10,40]` with OCR extent `100×200` and image
extent `1000×2000` yields the display polygon
`[[100,1800],[500,1800],[500,1600],[100,1600]]`. -/
theorem c6_ocr_display_transform :
    (∀ (text : Str) (pts : List (ℚ × ℚ)) (imageExtent ocrExtent : Extent) (page : Nat),
      (createBoundingBoxVectorFeature text (flattenPoints pts) imageExtent ocrExtent page).coordinates =
        pts.map (fun p =>
          (jsRound (p.1 / (ocrExtent.maxX - ocrExtent.minX) * (imageExtent.maxX - imageExtent.minX)),
           jsRound ((1 - p.2 / (ocrExtent.maxY - ocrExtent.minY)) * (imageExtent.maxY - imageExtent.minY))))) ∧
    (createBoundingBoxVectorFeature [] [10, 20, 50, 20, 50, 40, 10, 40]
        ⟨0, 0, 1000, 2000⟩ ⟨0, 0, 100, 200⟩ 1).coordinates =
      [(100, 1800), (500, 1800), (500, 1600), (100, 1600)] := by
  constructor
  · intro text pts ie oe page
    simp only [createBoundingBoxVectorFeature]
    exact displayCoordinatesOf_flatten _ _ _ _ pts
  · with_unfolding_all decide

theorem getRegionOrderAux_spec (id : Str) :
    ∀ (orders : List (List (Str × Nat))) (i : Nat),
      getRegionOrderAux id orders i = (specFindPage orders id (i + 1)).getD ⟨1, 0⟩
  | [], _ => rfl
  | rec :: rest, i => by
    simp only [getRegionOrderAux, specFindPage]
    cases recLookup rec id with
    | some o => rfl
    | none => exact getRegionOrderAux_spec id rest (i + 1)

theorem getRegionOrder_eq_spec (orders : List (List (Str × Nat))) (id : Str) :
    getRegionOrder orders id = specRegionOrder orders id := by
  unfold getRegionOrder specRegionOrder
  simpa using getRegionOrderAux_spec id orders 0

theorem specFindPage_none_iff (id : Str) :
    ∀ (orders : List (List (Str × Nat))) (i : Nat),
      specFindPage orders id i = none ↔ ∀ rec ∈ orders, recLookup rec id = none
  | [], _ => by simp [specFindPage]
  | rec :: rest, i => by
    simp only [specFindPage]
    cases h : recLookup rec id with
    | some o => simp [h]
    | none => simpa [h] using specFindPage_none_iff id rest (i + 1)

/-- C5: `compareRegionOrder` looks each region's `(page, order)` up in the
order index — `getRegionOrder` agrees with the reference lookup that
substitutes the default `{page: 1, order: 0}` exactly for ids absent from
every page's record — and orders by page first, then by order ascending
(result `1` exactly on a lexicographically greater key, `-1` otherwise). -/
theorem c5_compare_region_order (orders : List (List (Str × Nat)))
    (id : Str) (r1 r2 : IRegion) :
    (getRegionOrder orders id = specRegionOrder orders id) ∧
    (specFindPage orders id 1 = none ↔ ∀ rec ∈ orders, recLookup rec id = none) ∧
    (compareRegionOrder orders r1 r2 = 1 ↔
      ((specRegionOrder orders r2.id).page < (specRegionOrder orders r1.id).page ∨
        ((specRegionOrder orders r1.id).page = (specRegionOrder orders r2.id).page ∧
          (specRegionOrder orders r2.id).order < (specRegionOrder orders r1.id).order))) ∧
    (compareRegionOrder orders r1 r2 = -1 ↔
      ¬ ((specRegionOrder orders r2.id).page < (specRegionOrder orders r1.id).page ∨
        ((specRegionOrder orders r1.id).page = (specRegionOrder orders r2.id).page ∧
          (specRegionOrder orders r2.id).order < (specRegionOrder orders r1.id).order))) := by
  refine ⟨getRegionOrder_eq_spec orders id, specFindPage_none_iff id orders 1, ?_, ?_⟩ <;>
  · unfold compareRegionOrder
    rw [getRegionOrder_eq_spec orders r1.id, getRegionOrder_eq_spec orders r2.id]
    by_cases hp : (specRegionOrder orders r1.id).page = (specRegionOrder orders r2.id).page
    · rw [if_pos hp]
      by_cases ho : (specRegionOrder orders r1.id).order > (specRegionOrder orders r2.id).order
      · rw [if_pos ho]
        constructor <;> intro h <;> first | omega | simp_all | tauto
      · rw [if_neg ho]
        constructor <;> intro h <;> first | omega | simp_all | tauto
    · rw [if_neg hp]
      by_cases hg : (specRegionOrder orders r1.id).page > (specRegionOrder orders r2.id).page
      · rw [if_pos hg]
        constructor <;> intro h <;> first | omega | simp_all | tauto
      · rw [if_neg hg]
        constructor <;> intro h <;> first | omega | simp_all | tauto

theorem range'_append_one : ∀ (a n b : Nat),
    List.range' n a ++ List.range' (n + a) b = List.range' n (a + b)
  | 0, n, b => by simp
  | a + 1, n, b => by
    rw [List.range'_succ]
    have h1 : a + 1 + b = (a + b) + 1 := by omega
    rw [h1, List.range'_succ, List.cons_append]
    have h2 : n + (a + 1) = (n + 1) + a := by omega
    rw [h2, range'_append_one a (n + 1) b]

theorem buildWordOrders_snd (ie oe : Extent) (page : Nat) :
    ∀ (ws : List OcrWord) (n : Nat),
      (buildWordOrders ie oe page ws n).2 =
        n + (ws.filter (fun w => shouldDisplayOcrWord w.text)).length
  | [], n => by simp [buildWordOrders]
  | w :: ws, n => by
    cases h : shouldDisplayOcrWord w.text
    · simp [buildWordOrders, h, List.filter_cons, buildWordOrders_snd ie oe page ws n]
    · simp [buildWordOrders, h, List.filter_cons, buildWordOrders_snd ie oe page ws (n + 1)]
      omega

theorem buildWordOrders_maps (ie oe : Extent) (page : Nat) :
    ∀ (ws : List OcrWord) (n : Nat),
      (buildWordOrders ie oe page ws n).1.map Prod.snd =
        List.range' n ((ws.filter (fun w => shouldDisplayOcrWord w.text)).length) ∧
      (buildWordOrders ie oe page ws n).1.map Prod.fst =
        (ws.filter (fun w => shouldDisplayOcrWord w.text)).map
          (fun w => (createBoundingBoxVectorFeature w.text w.boundingBox ie oe page).id)
  | [], n => by simp [buildWordOrders]
  | w :: ws, n => by
    cases h : shouldDisplayOcrWord w.text
    · have ih := buildWordOrders_maps ie oe page ws n
      simp [buildWordOrders, h, List.filter_cons, ih.1, ih.2]
    · have ih := buildWordOrders_maps ie oe page ws (n + 1)
      simp only [buildWordOrders, h, if_pos, List.filter_cons, ite_true, List.map_cons,
        List.length_cons]
      rw [List.range'_succ]
      exact ⟨by rw [ih.1], by rw [ih.2]⟩

theorem buildLineOrders_spec (ie oe : Extent) (page : Nat) :
    ∀ (lines : List OcrLine) (n : Nat),
      (buildLineOrders ie oe page lines n).map Prod.snd =
        List.range' n
          (((lines.flatMap (fun l => l.words)).filter
            (fun w => shouldDisplayOcrWord w.text)).length) ∧
      (buildLineOrders ie oe page lines n).map Prod.fst =
        ((lines.flatMap (fun l => l.words)).filter
          (fun w => shouldDisplayOcrWord w.text)).map
            (fun w => (createBoundingBoxVectorFeature w.text w.boundingBox ie oe page).id)
  | [], n => by simp [buildLineOrders]
  | line :: lines, n => by
    have hw := buildWordOrders_maps ie oe page line.words n
    have hsnd := buildWordOrders_snd ie oe page line.words n
    have hl := buildLineOrders_spec ie oe page lines
      ((buildWordOrders ie oe page line.words n).2)
    simp only [buildLineOrders, List.flatMap_cons, List.filter_append, List.map_append,
      List.length_append]
    constructor
    · rw [hw.1, hl.1, hsnd]
      exact range'_append_one _ n _
    · rw [hw.2, hl.2]

/-- C4: building the region order index assigns, within each page, the ranks
`0, 1, 2, …` in the OCR traversal order of lines then words — the rank list
is exactly `range k` over the `k` displayed words, whose feature ids the key
list matches in order — and a word is excluded exactly when its text is one
or more underscores and nothing else; the line `["___", "Paid", "$10"]`
yields rank 0 for `"Paid"`, rank 1 for `"$10"`, and no entry for `"___"`. -/
theorem c4_region_order_index (imageExtent : Extent) (p : OcrPage) (t : Str) :
    ((buildPageOrders imageExtent p).map Prod.snd =
      List.range (((p.lines.flatMap (fun l => l.words)).filter
        (fun w => shouldDisplayOcrWord w.text)).length)) ∧
    ((buildPageOrders imageExtent p).map Prod.fst =
      ((p.lines.flatMap (fun l => l.words)).filter
        (fun w => shouldDisplayOcrWord w.text)).map
          (fun w => (createBoundingBoxVectorFeature w.text w.boundingBox imageExtent
            ⟨0, 0, p.width, p.height⟩ p.page).id)) ∧
    (shouldDisplayOcrWord t = false ↔ (t ≠ [] ∧ ∀ c ∈ t, c = '_')) ∧
    (recLookup (buildPageOrders ⟨0, 0, 1, 1⟩
        { page := 1, width := 1, height := 1,
          lines := [{ words := [{ text := "___".toList, boundingBox := [0, 0, 1, 0, 1, 1, 0, 1] },
                                { text := "Paid".toList, boundingBox := [0, 1, 2, 1, 2, 2, 0, 2] },
                                { text := "$10".toList, boundingBox := [0, 2, 3, 2, 3, 3, 0, 3] }] }] })
        (createBoundingBoxVectorFeature ("Paid".toList) [0, 1, 2, 1, 2, 2, 0, 2]
          ⟨0, 0, 1, 1⟩ ⟨0, 0, 1, 1⟩ 1).id = some 0 ∧
      recLookup (buildPageOrders ⟨0, 0, 1, 1⟩
        { page := 1, width := 1, height := 1,
          lines := [{ words := [{ text := "___".toList, boundingBox := [0, 0, 1, 0, 1, 1, 0, 1] },
                                { text := "Paid".toList, boundingBox := [0, 1, 2, 1, 2, 2, 0, 2] },
                                { text := "$10".toList, boundingBox := [0, 2, 3, 2, 3, 3, 0, 3] }] }] })
        (createBoundingBoxVectorFeature ("$10".toList) [0, 2, 3, 2, 3, 3, 0, 3]
          ⟨0, 0, 1, 1⟩ ⟨0, 0, 1, 1⟩ 1).id = some 1 ∧
      recLookup (buildPageOrders ⟨0, 0, 1, 1⟩
        { page := 1, width := 1, height := 1,
          lines := [{ words := [{ text := "___".toList, boundingBox := [0, 0, 1, 0, 1, 1, 0, 1] },
                                { text := "Paid".toList, boundingBox := [0, 1, 2, 1, 2, 2, 0, 2] },
                                { text := "$10".toList, boundingBox := [0, 2, 3, 2, 3, 3, 0, 3] }] }] })
        (createBoundingBoxVectorFeature ("___".toList) [0, 0, 1, 0, 1, 1, 0, 1]
          ⟨0, 0, 1, 1⟩ ⟨0, 0, 1, 1⟩ 1).id = none) := by
  refine ⟨?_, ?_, ?_, ?_⟩
  · rw [List.range_eq_range']
    exact (buildLineOrders_spec imageExtent ⟨0, 0, p.width, p.height⟩ p.page p.lines 0).1
  · exact (buildLineOrders_spec imageExtent ⟨0, 0, p.width, p.height⟩ p.page p.lines 0).2
  · unfold shouldDisplayOcrWord
    cases t with
    | nil => simp
    | cons c cs => simp [List.all_eq_true]
  · with_unfolding_all decide

/-- C1 (refuting the claim as stated, code bug): the out-of-range guard of
`goToPage` has an empty body (its own comment says "invalid page number,
just return", but nothing returns), so `goToPage(2)` on a one-page asset is
*not* a silent no-op: the selected untagged region is pruned from the
region list and the selection set is cleared before the page switch fails. -/
theorem c1_goto_page_out_of_range_mutates :
    c1State.numPages = 1 ∧
    c1State.regions = [c1Region] ∧
    c1State.selectedRegionIds = [['a']] ∧
    (goToPage c1State 2).regions = [] ∧
    (goToPage c1State 2).selectedRegionIds = [] ∧
    (goToPage c1State 2).currentPage = c1State.currentPage := by
  with_unfolding_all decide

/-- C8 (refuting the claim as stated, code bug): toggling the selected
region "a" does deselect it, but the transient-region pruning tests
`getSelectedRegions()[iRegionId]` — the selection-list index applied to the
region-list-ordered selection — so here it reads untagged region "b",
concludes the deselected region has zero tags, and deletes the *tagged*
region "a" outright, which the claim says can never happen. -/
theorem c8_toggle_deletes_tagged_region :
    c8RegionA.tags ≠ [] ∧
    (handleFeatureSelect c8State c8Feature).regions = [c8RegionB] ∧
    (handleFeatureSelect c8State c8Feature).selectedRegionIds = [['b']] := by
  with_unfolding_all decide

theorem applyTag_of_noop (s : CanvasState) (t : Str)
    (h : t = [] ∨ getSelectedRegions s = []) : applyTag s t = s := by
  simp only [applyTag]
  rw [if_pos h]

theorem applyTag_conflict (s : CanvasState) (t : Str)
    (h1 : ¬ (t = [] ∨ getSelectedRegions s = []))
    (hc : multiPagePageCount s t (getSelectedRegions s) > 1) :
    applyTag s t =
      { s with isError := true
               errorMessage := some (multiPageWarningMessage t
                 (multiPagePageCount s t (getSelectedRegions s))) } := by
  simp only [applyTag, showMultiPageFieldWarningIfNecessary]
  rw [if_neg h1, if_pos hc]
  rfl

theorem applyTag_success_eq (s : CanvasState) (t : Str)
    (h1 : ¬ (t = [] ∨ getSelectedRegions s = []))
    (hc : ¬ multiPagePageCount s t (getSelectedRegions s) > 1) :
    applyTag s t =
      { updateRegions
          { s with regions := s.regions.map (fun r =>
              if isSelectedRegion s r then { r with tags := setSingleTag r.tags t } else r) }
          ((getSelectedRegions s).map (fun r => { r with tags := setSingleTag r.tags t }))
        with selectedRegionIds := [] } := by
  simp only [applyTag, showMultiPageFieldWarningIfNecessary]
  rw [if_neg h1, if_neg hc]
  rfl

theorem applyTag_updates_filter_nil (s : CanvasState) (t : Str) :
    ((getSelectedRegions s).map (fun r => { r with tags := setSingleTag r.tags t })).filter
      (fun u => (s.regions.map (fun r =>
        if isSelectedRegion s r then { r with tags := setSingleTag r.tags t } else r)).all
          (fun r => r.id ≠ u.id)) = [] := by
  rw [List.filter_eq_nil_iff]
  intro u hu
  rcases List.mem_map.mp hu with ⟨r, hr, rfl⟩
  have hrmem : r ∈ s.regions := (List.mem_filter.mp hr).1
  have hrsel : isSelectedRegion s r = true := (List.mem_filter.mp hr).2
  intro hall
  simp only [List.all_eq_true, decide_eq_true_eq] at hall
  have hmem : (if isSelectedRegion s r then { r with tags := setSingleTag r.tags t } else r) ∈
      s.regions.map (fun r =>
        if isSelectedRegion s r then { r with tags := setSingleTag r.tags t } else r) :=
    List.mem_map_of_mem _ hrmem
  have h2 := hall _ hmem
  rw [if_pos hrsel] at h2
  exact h2 rfl

theorem multiPageWarningMessage_sublists (tagName : Str) (pageCount : Nat) :
    tagName.Sublist (multiPageWarningMessage tagName pageCount) ∧
    (natToStr pageCount).Sublist (multiPageWarningMessage tagName pageCount) := by
  unfold multiPageWarningMessage
  constructor
  · exact (((List.sublist_append_right _ tagName).trans
      (List.sublist_append_left _ _)).trans
        (List.sublist_append_left _ _)).trans (List.sublist_append_left _ _)
  · exact (List.sublist_append_right _ _).trans (List.sublist_append_left _ _)

/-- C2: with a non-empty tag and non-empty selection, `applyTag` rejects —
region list, every region's tags, and the selection untouched, and a
user-facing message containing the tag and the rendered page count surfaced
— exactly when the union of the regions already tagged with the tag and the
selected regions spans more than one distinct page number; otherwise it
mutates (replacing each selected region's tags, sorting, and clearing the
selection).  In particular, with one region tagged "Total" on page 1 and a
newly selected region on page 2, applying "Total" rejects and leaves both
regions' tags unchanged. -/
theorem c2_apply_tag_cross_page (s : CanvasState) (t : Str) (htag : t ≠ [])
    (hsel : getSelectedRegions s ≠ []) :
    (1 < multiPagePageCount s t (getSelectedRegions s) →
      (applyTag s t).regions = s.regions ∧
      (applyTag s t).selectedRegionIds = s.selectedRegionIds ∧
      (applyTag s t).isError = true ∧
      (applyTag s t).errorMessage =
        some (multiPageWarningMessage t (multiPagePageCount s t (getSelectedRegions s))) ∧
      t.Sublist (multiPageWarningMessage t (multiPagePageCount s t (getSelectedRegions s))) ∧
      (natToStr (multiPagePageCount s t (getSelectedRegions s))).Sublist
        (multiPageWarningMessage t (multiPagePageCount s t (getSelectedRegions s)))) ∧
    (¬ 1 < multiPagePageCount s t (getSelectedRegions s) →
      (applyTag s t).selectedRegionIds = [] ∧
      (applyTag s t).isError = s.isError ∧
      (applyTag s t).errorMessage = s.errorMessage ∧
      (applyTag s t).regions = sortRegions s.regionOrders
        (s.regions.map (fun r =>
          if isSelectedRegion s r then { r with tags := setSingleTag r.tags t } else r))) ∧
    ((applyTag c2State ("Total".toList)).regions = c2State.regions ∧
      (applyTag c2State ("Total".toList)).isError = true ∧
      (applyTag c2State ("Total".toList)).errorMessage ≠ none) := by
  have h1 : ¬ (t = [] ∨ getSelectedRegions s = []) := by
    intro h
    rcases h with h | h
    · exact htag h
    · exact hsel h
  refine ⟨?_, ?_, by with_unfolding_all decide⟩
  · intro hc
    rw [applyTag_conflict s t h1 hc]
    refine ⟨rfl, rfl, rfl, rfl, ?_, ?_⟩
    · exact (multiPageWarningMessage_sublists t _).1
    · exact (multiPageWarningMessage_sublists t _).2
  · intro hc
    rw [applyTag_success_eq s t h1 hc]
    refine ⟨rfl, rfl, rfl, ?_⟩
    show (updateRegions _ _).regions = _
    simp only [updateRegions, updateAssetRegions]
    rw [applyTag_updates_filter_nil s t, List.append_nil]

theorem c2_apply_tag_cross_page_witness :
    ("Total".toList ≠ ([] : Str)) ∧
    (getSelectedRegions c2State ≠ []) ∧
    (applyTag c2State ("Total".toList)).regions = c2State.regions ∧
    (applyTag c2State ("Total".toList)).isError = true := by
  have h := c2_apply_tag_cross_page c2State ("Total".toList)
    (by with_unfolding_all decide) (by with_unfolding_all decide)
  exact ⟨by with_unfolding_all decide, by with_unfolding_all decide,
    h.2.2.1, h.2.2.2.1⟩

/-- C9: `applyTag` is idempotent — a second application of the same tag
(the selection having been cleared or the same rejection recurring) leaves
the state of the first application unchanged — and each application
replaces (never appends to) a region's tag list with the one-element list. -/
theorem c9_apply_tag_idempotent (s : CanvasState) (t : Str) (tags : List Str) :
    applyTag (applyTag s t) t = applyTag s t ∧ setSingleTag tags t = [t] := by
  refine ⟨?_, rfl⟩
  by_cases h1 : t = [] ∨ getSelectedRegions s = []
  · have hs := applyTag_of_noop s t h1
    rw [hs, hs]
  · by_cases hc : multiPagePageCount s t (getSelectedRegions s) > 1
    · have h2 := applyTag_conflict s t h1 hc
      have hsel' : getSelectedRegions (applyTag s t) = getSelectedRegions s := by
        rw [h2]; rfl
      have hcount' : multiPagePageCount (applyTag s t) t
          (getSelectedRegions (applyTag s t)) =
          multiPagePageCount s t (getSelectedRegions s) := by
        rw [h2]; rfl
      have h1' : ¬ (t = [] ∨ getSelectedRegions (applyTag s t) = []) := by
        rw [hsel']; exact h1
      have hc' : multiPagePageCount (applyTag s t) t
          (getSelectedRegions (applyTag s t)) > 1 := by
        rw [hcount']; exact hc
      have h3 := applyTag_conflict (applyTag s t) t h1' hc'
      rw [h3, hcount', h2]
    · have h2 := applyTag_success_eq s t h1 hc
      have hsel2 : getSelectedRegions (applyTag s t) = [] := by
        rw [h2]
        simp [getSelectedRegions, isSelectedRegion]
      exact applyTag_of_noop (applyTag s t) t (Or.inr hsel2)

theorem convertLabelDataToRegions_eq (L : ILabelData) :
    convertLabelDataToRegions L = L.labels.flatMap regionsOfLabel := rfl

theorem regionsOfLabel_tags (lab : ILabel) :
    ∀ r ∈ regionsOfLabel lab, r.tags = [lab.label] := by
  intro r hr
  rcases List.mem_flatMap.mp hr with ⟨fr, _, hr2⟩
  rcases List.mem_map.mp hr2 with ⟨bi, _, rfl⟩
  rfl

theorem regionsOfLabel_proj (lab : ILabel)
    (hboxes : ∀ fr ∈ lab.value, ∀ b ∈ fr.boundingBoxes, b ≠ [] ∧ ∀ q ∈ b, IsDec q) :
    (regionsOfLabel lab).map
      (fun r => (r.pageNumber, splitIdToFloats r.id)) = (labelView lab).2 := by
  unfold regionsOfLabel labelView
  rw [List.map_flatMap]
  apply List.flatMap_congr
  intro fr hfr
  rw [List.map_map]
  have h1 : fr.boundingBoxes.enum.map
      ((fun r => (r.pageNumber, splitIdToFloats r.id)) ∘ (fun bi =>
        createRegion bi.2 (getBoundingBoxTextFromRegion fr bi.1) lab.label fr.page)) =
      fr.boundingBoxes.enum.map (fun bi => (fr.page, bi.2)) := by
    apply List.map_congr_left
    intro bi hbi
    have hb : bi.2 ∈ fr.boundingBoxes := by
      have := List.mem_map_of_mem Prod.snd hbi
      rwa [List.enum_map_snd] at this
    have hbox := hboxes fr hfr bi.2 hb
    show (fr.page, splitIdToFloats (createRegionIdFromBoundingBox bi.2 fr.page)) = _
    rw [splitIdToFloats_createRegionId bi.2 fr.page hbox.1 hbox.2]
  rw [h1]
  have h2 : fr.boundingBoxes.enum.map (fun bi => (fr.page, bi.2)) =
      fr.boundingBoxes.enum.map ((fun b => (fr.page, b)) ∘ Prod.snd) := rfl
  rw [h2, ← List.map_map, List.enum_map_snd]

theorem dedupFirstAux_skip {α : Type} [DecidableEq α] (v : α) (seen : List α)
    (hv : v ∈ seen) : ∀ (k : Nat) (t : List α),
      dedupFirstAux seen (List.replicate k v ++ t) = dedupFirstAux seen t
  | 0, t => rfl
  | k + 1, t => by
    rw [List.replicate_succ, List.cons_append]
    show dedupFirstAux seen (v :: (List.replicate k v ++ t)) = _
    simp only [dedupFirstAux, if_pos hv]
    exact dedupFirstAux_skip v seen hv k t

theorem map_const_mem {α β : Type} (l : List α) (c : β) (f : α → β)
    (h : ∀ x ∈ l, f x = c) : l.map f = List.replicate l.length c := by
  induction l with
  | nil => rfl
  | cons x xs ih =>
    rw [List.map_cons, h x (by simp), List.length_cons, List.replicate_succ]
    rw [ih (fun y hy => h y (by simp [hy]))]

theorem dedupFirstAux_groups :
    ∀ (labs : List ILabel) (seen : List (Option Str)),
      (labs.map (fun lab => lab.label)).Nodup →
      (∀ lab ∈ labs, regionsOfLabel lab ≠ []) →
      (∀ lab ∈ labs, some lab.label ∉ seen) →
      dedupFirstAux seen
        ((labs.flatMap regionsOfLabel).map (fun r => r.tags.head?)) =
        labs.map (fun lab => some lab.label)
  | [], _, _, _, _ => rfl
  | lab :: rest, seen, hnodup, hne, hseen => by
    rw [List.flatMap_cons, List.map_append]
    have hblock : (regionsOfLabel lab).map (fun r => r.tags.head?) =
        List.replicate (regionsOfLabel lab).length (some lab.label) :=
      map_const_mem _ _ _ (fun r hr => by rw [regionsOfLabel_tags lab r hr]; rfl)
    rw [hblock]
    obtain ⟨r0, rs, hrs⟩ : ∃ r0 rs, regionsOfLabel lab = r0 :: rs := by
      cases h : regionsOfLabel lab with
      | nil => exact absurd h (hne lab (by simp))
      | cons r0 rs => exact ⟨r0, rs, rfl⟩
    rw [hrs]
    simp only [List.length_cons, List.replicate_succ, List.cons_append]
    show dedupFirstAux seen (some lab.label :: _) = _
    rw [show dedupFirstAux seen (some lab.label ::
        (List.replicate rs.length (some lab.label) ++
          (rest.flatMap regionsOfLabel).map (fun r => r.tags.head?))) =
        some lab.label :: dedupFirstAux (some lab.label :: seen)
          (List.replicate rs.length (some lab.label) ++
            (rest.flatMap regionsOfLabel).map (fun r => r.tags.head?)) from by
      simp only [dedupFirstAux, if_neg (hseen lab (by simp))]]
    rw [dedupFirstAux_skip (some lab.label) _ (by simp) rs.length _]
    rw [dedupFirstAux_groups rest (some lab.label :: seen)
      (by rw [List.map_cons, List.nodup_cons] at hnodup; exact hnodup.2)
      (fun l hl => hne l (by simp [hl]))
      (by
        intro l hl
        rw [List.map_cons, List.nodup_cons] at hnodup
        intro hmem
        rcases List.mem_cons.mp hmem with heq | hseen'
        · have : l.label ∈ rest.map (fun lab => lab.label) :=
            List.mem_map_of_mem _ hl
          rw [show l.label = lab.label from by
            have := Option.some.inj heq; exact this] at this
          exact hnodup.1 this
        · exact hseen l (by simp [hl]) hseen')]
    rw [List.map_cons]

theorem filter_flatMap_groups :
    ∀ (labs : List ILabel), (labs.map (fun lab => lab.label)).Nodup →
      ∀ lab₀ ∈ labs,
        (labs.flatMap regionsOfLabel).filter
          (fun r => lab₀.label ∈ r.tags) = regionsOfLabel lab₀
  | [], _, lab₀, h => absurd h (by simp)
  | lab :: rest, hnodup, lab₀, hmem => by
    rw [List.flatMap_cons, List.filter_append]
    rw [List.map_cons, List.nodup_cons] at hnodup
    by_cases heq : lab₀.label = lab.label
    · have hlab : lab₀ = lab := by
        rcases List.mem_cons.mp hmem with rfl | hrest
        · rfl
        · exfalso
          apply hnodup.1
          rw [← heq]
          exact List.mem_map_of_mem _ hrest
      subst hlab
      have h1 : (regionsOfLabel lab₀).filter (fun r => lab₀.label ∈ r.tags) =
          regionsOfLabel lab₀ := by
        rw [List.filter_eq_self]
        intro r hr
        rw [regionsOfLabel_tags lab₀ r hr]
        simp
      have h2 : (rest.flatMap regionsOfLabel).filter
          (fun r => lab₀.label ∈ r.tags) = [] := by
        rw [List.filter_eq_nil_iff]
        intro r hr
        rcases List.mem_flatMap.mp hr with ⟨l, hl, hrl⟩
        rw [regionsOfLabel_tags l r hrl]
        simp only [List.mem_singleton, decide_eq_true_eq]
        intro hbad
        have hmm : l.label ∈ rest.map (fun lab => lab.label) :=
          List.mem_map_of_mem _ hl
        rw [← hbad] at hmm
        exact hnodup.1 hmm
      rw [h1, h2, List.append_nil]
    · have hrest : lab₀ ∈ rest := by
        rcases List.mem_cons.mp hmem with rfl | hrest
        · exact absurd rfl heq
        · exact hrest
      have h1 : (regionsOfLabel lab).filter (fun r => lab₀.label ∈ r.tags) = [] := by
        rw [List.filter_eq_nil_iff]
        intro r hr
        rw [regionsOfLabel_tags lab r hr]
        simp only [List.mem_singleton, decide_eq_true_eq]
        exact heq
      rw [h1, List.nil_append]
      exact filter_flatMap_groups rest hnodup.2 lab₀ hrest

theorem flatMap_pairs (rs : List IRegion) :
    (rs.map (fun region =>
        ({ page := region.pageNumber, text := region.value,
           boundingBoxes := [splitIdToFloats region.id] } : IFormRegion))).flatMap
      (fun fr => fr.boundingBoxes.map (fun b => (fr.page, b))) =
      rs.map (fun region => (region.pageNumber, splitIdToFloats region.id)) := by
  induction rs with
  | nil => rfl
  | cons r rs ih =>
    simp only [List.map_cons, List.flatMap_cons]
    rw [ih]
    rfl

theorem labelView_built (fn : Str) (rs : List IRegion) :
    labelView
      { label := fn, key := none,
        value := rs.map (fun region =>
          { page := region.pageNumber, text := region.value,
            boundingBoxes := [splitIdToFloats region.id] }) } =
      (fn, rs.map (fun region => (region.pageNumber, splitIdToFloats region.id))) := by
  unfold labelView
  dsimp only
  rw [flatMap_pairs]

theorem filterMap_some_labels (labs : List ILabel) :
    (labs.map (fun lab => some lab.label)).filterMap (fun o : Option Str => o) =
      labs.map (fun lab => lab.label) := by
  induction labs with
  | nil => rfl
  | cons lab rest ih => simp [List.filterMap_cons, ih]

/-- C3: for label data with distinct field names, at least one box per
label, and well-formed boxes (non-empty, finite-decimal coordinates),
converting to regions and back reproduces every label's field name (even in
order) together with its flattened list of `(page, bounding box)` pairs —
the round-trip contract up to field order and floating-point formatting,
which the finite-decimal hypothesis makes exact. -/
theorem c3_label_region_roundtrip (L : ILabelData) (name : Str)
    (hnodup : (L.labels.map (fun lab => lab.label)).Nodup)
    (hne : ∀ lab ∈ L.labels, (labelView lab).2 ≠ [])
    (hboxes : ∀ lab ∈ L.labels, ∀ fr ∈ lab.value, ∀ b ∈ fr.boundingBoxes,
      b ≠ [] ∧ ∀ q ∈ b, IsDec q) :
    (convertRegionsToLabelData (convertLabelDataToRegions L) name).labels.map labelView =
      L.labels.map labelView := by
  have hgne : ∀ lab ∈ L.labels, regionsOfLabel lab ≠ [] := by
    intro lab hlab hnil
    apply hne lab hlab
    rw [← regionsOfLabel_proj lab (hboxes lab hlab), hnil]
    rfl
  have hnames :
      (dedupFirst ((convertLabelDataToRegions L).map
        (fun region => region.tags.head?))).filterMap (fun o : Option Str => o) =
      L.labels.map (fun lab => lab.label) := by
    rw [convertLabelDataToRegions_eq]
    unfold dedupFirst
    rw [dedupFirstAux_groups L.labels [] hnodup hgne (by simp)]
    exact filterMap_some_labels L.labels
  unfold convertRegionsToLabelData
  dsimp only
  rw [hnames, List.map_map, List.map_map]
  apply List.map_congr_left
  intro lab hlab
  dsimp only [Function.comp]
  rw [convertLabelDataToRegions_eq, filter_flatMap_groups L.labels hnodup lab hlab]
  rw [labelView_built lab.label (regionsOfLabel lab)]
  rw [regionsOfLabel_proj lab (hboxes lab hlab)]
  rfl

theorem c3_label_region_roundtrip_witness :
    (c3Data.labels.map (fun lab => lab.label)).Nodup ∧
    (∀ lab ∈ c3Data.labels, (labelView lab).2 ≠ []) ∧
    (convertRegionsToLabelData (convertLabelDataToRegions c3Data) []).labels.map labelView =
      c3Data.labels.map labelView :=
  ⟨by with_unfolding_all decide, by with_unfolding_all decide,
    c3_label_region_roundtrip c3Data [] (by with_unfolding_all decide)
      (by with_unfolding_all decide) (by with_unfolding_all decide)⟩
